import Mathlib

/-!
Verification of the EDF-decoding and windowed-decimation core of the
three-eeg repository (`src/main.ts` and its extended variant).

JavaScript semantics are embedded explicitly:

* byte buffers are `List Nat` (each entry one byte value);
* `String.prototype.trim` and `parseInt` are modelled on ASCII byte
  strings, with a `NaN` result represented as `Option.none` (header
  fields are decimal, so the hexadecimal branch of `parseInt` is
  unreachable and not modelled);
* `Math.floor(a / b)` on non-negative integers is `Nat` division;
* the two runtime exceptions the decoder can actually raise — the
  `RangeError` from `Array(n)` when `n` is `NaN` or negative, and the
  `RangeError` from `DataView.getInt16` on an out-of-bounds offset —
  are the constructors of `JSError`.
-/

/-- Byte-level test for the characters JS `String.trim` removes
(ASCII whitespace range). -/
def isWS (b : Nat) : Bool :=
  b == 32 || b == 9 || b == 10 || b == 11 || b == 12 || b == 13

/-- Decimal-digit test on ASCII byte values. -/
def isDigitB (b : Nat) : Bool := 48 ≤ b && b ≤ 57

/-- JS `String.prototype.trim` on a byte string: drop leading and
trailing whitespace. -/
def trimAscii (l : List Nat) : List Nat :=
  ((l.dropWhile isWS).reverse.dropWhile isWS).reverse

/-- `arrayBuffer.slice(a, b)` for `0 ≤ a ≤ b`: the byte range `[a, b)`,
clamped to the buffer (never failing). -/
def sliceBytes (buf : List Nat) (a b : Nat) : List Nat :=
  (buf.drop a).take (b - a)

/-- Fuel-driven worker for `natDigits` (structural recursion, so that
concrete buffers evaluate inside the kernel).  The fuel never runs out
when it starts at `n` (see `natDigits_eq`). -/
def natDigitsGo (fuel n : Nat) : List Nat :=
  match fuel with
  | 0 => [n % 10]
  | fuel + 1 => if n < 10 then [n] else natDigitsGo fuel (n / 10) ++ [n % 10]

/-- Decimal digits of a natural number, most significant first. -/
def natDigits (n : Nat) : List Nat := natDigitsGo n n

/-- The fuel argument of `natDigitsGo` is irrelevant once it dominates
the number. -/
theorem natDigitsGo_congr : ∀ (fuel fuel' n : Nat), n ≤ fuel → n ≤ fuel' →
    natDigitsGo fuel n = natDigitsGo fuel' n := by
  intro fuel
  induction fuel with
  | zero =>
    intro fuel' n h _
    have hn : n = 0 := by omega
    subst hn
    cases fuel' with
    | zero => rfl
    | succ f' => simp [natDigitsGo]
  | succ f ih =>
    intro fuel' n h h'
    cases fuel' with
    | zero =>
      have hn : n = 0 := by omega
      subst hn
      simp [natDigitsGo]
    | succ f' =>
      simp only [natDigitsGo]
      by_cases h10 : n < 10
      · rw [if_pos h10, if_pos h10]
      · rw [if_neg h10, if_neg h10]
        have hd : n / 10 ≤ f := by omega
        have hd' : n / 10 ≤ f' := by omega
        rw [ih f' (n / 10) hd hd']

/-- The defining recurrence of `natDigits`. -/
theorem natDigits_eq (n : Nat) :
    natDigits n = if n < 10 then [n] else natDigits (n / 10) ++ [n % 10] := by
  unfold natDigits
  cases n with
  | zero => simp [natDigitsGo]
  | succ m =>
    simp only [natDigitsGo]
    by_cases h10 : m + 1 < 10
    · rw [if_pos h10, if_pos h10]
    · rw [if_neg h10, if_neg h10]
      rw [natDigitsGo_congr m ((m + 1) / 10) ((m + 1) / 10) (by omega) (Nat.le_refl _)]

/-- ASCII bytes of the decimal rendering of `n`. -/
def natToAscii (n : Nat) : List Nat := (natDigits n).map (· + 48)

/-- An EDF header field of width `w`: content right-padded with spaces. -/
def padField (w : Nat) (l : List Nat) : List Nat :=
  l ++ List.replicate (w - l.length) 32

/-- Leading-digit parse used by JS `parseInt` after the optional sign:
take the maximal digit run; no digits means `NaN` (`none`). -/
def parseDigitsJS (l : List Nat) : Option Nat :=
  let ds := l.takeWhile isDigitB
  if ds.isEmpty then none
  else some (ds.foldl (fun a b => a * 10 + (b - 48)) 0)

/-- JS `parseInt` on a trimmed decimal byte string: optional `+`/`-`
sign, then the maximal digit run; `NaN` is `none`. -/
def parseIntJS (l : List Nat) : Option Int :=
  match l with
  | [] => none
  | b :: rest =>
    if b = 43 then (parseDigitsJS rest).map (fun n => (n : Int))
    else if b = 45 then (parseDigitsJS rest).map (fun n => -(n : Int))
    else (parseDigitsJS l).map (fun n => (n : Int))

/-- `decimateData` from `src/main.ts` lines 16–28: return short inputs
unchanged, otherwise sample `targetLength` points at the uniform integer
stride `Math.floor(data.length / targetLength)`.  The JS indexing
`data[i * stride]` is modelled with `List.getD`; its default is
unreachable (see `decimateData_safe`). -/
def decimateData (data : List Int) (targetLength : Nat) : List Int :=
  if data.length ≤ targetLength then data
  else
    let stride := data.length / targetLength
    (List.range targetLength).map (fun i => data.getD (i * stride) 0)

/-- Every index touched by the decimation loop is in bounds. -/
theorem decimate_index_lt (L B i : Nat) (hBL : B < L) (hi : i < B) :
    i * (L / B) < L := by
  have hB : 0 < B := by omega
  have hq : 1 ≤ L / B := (Nat.one_le_div_iff hB).mpr (Nat.le_of_lt hBL)
  have h2 : L / B * B ≤ L := Nat.div_mul_le_self L B
  calc i * (L / B) < i * (L / B) + L / B := by omega
    _ = (i + 1) * (L / B) := by ring
    _ ≤ B * (L / B) := Nat.mul_le_mul_right _ (by omega)
    _ = L / B * B := by ring
    _ ≤ L := h2

/-- Claim C1: `decimateData` returns `data` unchanged when
`data.length ≤ B`; otherwise it returns exactly `B` elements, the
element at index `i * floor(data.length / B)` in position `i`. -/
theorem decimateData_spec (data : List Int) (B : Nat) :
    (data.length ≤ B → decimateData data B = data) ∧
    (B < data.length →
      (decimateData data B).length = B ∧
      ∀ i, i < B → (decimateData data B)[i]? = data[i * (data.length / B)]?) := by
  constructor
  · intro h
    simp [decimateData, h]
  · intro h
    rw [decimateData, if_neg (by omega)]
    refine ⟨by simp, ?_⟩
    intro i hi
    have hidx : i * (data.length / B) < data.length := decimate_index_lt _ _ _ h hi
    rw [List.getElem?_map, List.getElem?_range hi]
    simp [List.getD_eq_getElem?_getD, List.getElem?_eq_getElem hidx]

/-- Concrete instance of `decimateData_spec`: a five-element list
decimated to budget 2 has length 2 and picks indices 0 and 2. -/
theorem decimateData_spec_witness :
    (decimateData [10, 20, 30, 40, 50] 2).length = 2 ∧
    (decimateData [10, 20, 30, 40, 50] 2)[1]? =
      (([10, 20, 30, 40, 50] : List Int))[1 * (([10, 20, 30, 40, 50] : List Int).length / 2)]? := by
  have h := (decimateData_spec [10, 20, 30, 40, 50] 2).2 (by decide)
  exact ⟨h.1, h.2 1 (by decide)⟩

/-- Claim C10: for `L > B ≥ 1` every index accessed by `decimateData`
is in bounds, and every element of the output occurs in the input. -/
theorem decimateData_safe (data : List Int) (B : Nat) (hB : 1 ≤ B)
    (hL : B < data.length) :
    (∀ i, i < B → i * (data.length / B) < data.length) ∧
    (∀ x ∈ decimateData data B, x ∈ data) := by
  refine ⟨fun i hi => decimate_index_lt _ _ _ hL hi, ?_⟩
  intro x hx
  rw [decimateData, if_neg (by omega)] at hx
  simp only [List.mem_map, List.mem_range] at hx
  obtain ⟨i, hi, rfl⟩ := hx
  have hidx : i * (data.length / B) < data.length := decimate_index_lt _ _ _ hL hi
  rw [List.getD_eq_getElem?_getD, List.getElem?_eq_getElem hidx]
  exact List.getElem_mem hidx

/-- Concrete instance of `decimateData_safe` at a three-element list
with budget 1. -/
theorem decimateData_safe_witness :
    (∀ i, i < 1 → i * (([5, 6, 7] : List Int).length / 1) < ([5, 6, 7] : List Int).length) ∧
    (∀ x ∈ decimateData [5, 6, 7] 1, x ∈ ([5, 6, 7] : List Int)) :=
  decimateData_safe [5, 6, 7] 1 (by decide) (by decide)

/-- `getWindowStart` from the extended `main.ts` lines 159–163, with the
scrollbar value and the configured `maxPointsPerWave` (`B`, equal to 100
in `DATA_CONFIG`) as explicit arguments: `Math.min(scrollValue,
Math.max(0, totalLength - B))`.  The `!scrollbar` early return (start 0)
is the no-scrollbar path and is not part of the windowing contract. -/
def getWindowStart (scrollValue : Int) (totalLength B : Nat) : Int :=
  min scrollValue (max 0 ((totalLength : Int) - B))

/-- JS `Array.prototype.slice(start, stop)`: negative positions count
from the end of the array, and both positions are clamped to
`[0, length]`. -/
def jsSlice (l : List Int) (start stop : Int) : List Int :=
  let len : Int := l.length
  let s := if start < 0 then max (len + start) 0 else min start len
  let e := if stop < 0 then max (len + stop) 0 else min stop len
  (l.drop s.toNat).take (e - s).toNat

/-- The sub-window extraction of `renderWindow` (lines 189–191):
`start = getWindowStart(signal.length)`,
`end = Math.min(start + maxPointsPerWave, signal.length)`,
`signal.slice(start, end)`. -/
def renderWindowSlice (signal : List Int) (scrollValue : Int) (B : Nat) : List Int :=
  let start := getWindowStart scrollValue signal.length B
  let stop := min (start + B) (signal.length : Int)
  jsSlice signal start stop

/-- The window-then-decimate pipeline of `renderWindow` lines 189–192,
the spec's `windowAndDecimate(seq, s, B)`. -/
def windowAndDecimate (seq : List Int) (scrollValue : Int) (B : Nat) : List Int :=
  decimateData (renderWindowSlice seq scrollValue B) B

/-- `jsSlice` on non-negative positions with an in-range `stop` is
drop-then-take. -/
theorem jsSlice_of_nonneg (l : List Int) (a b : Nat) (hb : b ≤ l.length) :
    jsSlice l (a : Int) (b : Int) = (l.drop a).take (b - a) := by
  simp only [jsSlice]
  rw [if_neg (by omega), if_neg (by omega)]
  by_cases ha : a ≤ l.length
  · have h1 : (min (a : Int) (l.length : Int)).toNat = a := by omega
    have h2 : ((min (b : Int) (l.length : Int)) - min (a : Int) (l.length : Int)).toNat
        = b - a := by omega
    rw [h1, h2]
  · have h1 : (min (a : Int) (l.length : Int)).toNat = l.length := by omega
    have h3 : l.drop l.length = [] := by simp
    have h4 : l.drop a = [] := List.drop_eq_nil_of_le (by omega)
    rw [h1, h3, h4]
    simp

/-- For a non-negative requested start `s`, the effective start is
`min s (L - B)` (as a natural number) and the extracted window is the
contiguous range starting there, of length `min (start + B) L - start`. -/
theorem renderWindowSlice_nonneg (seq : List Int) (s B : Nat) :
    getWindowStart (s : Int) seq.length B = ((min s (seq.length - B) : Nat) : Int) ∧
    renderWindowSlice seq (s : Int) B =
      (seq.drop (min s (seq.length - B))).take
        (min (min s (seq.length - B) + B) seq.length - min s (seq.length - B)) := by
  have hstart : getWindowStart (s : Int) seq.length B
      = ((min s (seq.length - B) : Nat) : Int) := by
    unfold getWindowStart; omega
  refine ⟨hstart, ?_⟩
  simp only [renderWindowSlice]
  rw [hstart]
  have hstop : min (((min s (seq.length - B) : Nat) : Int) + B) (seq.length : Int)
      = ((min (min s (seq.length - B) + B) seq.length : Nat) : Int) := by omega
  rw [hstop]
  exact jsSlice_of_nonneg seq _ _ (by omega)

/-- Claim C7: `windowAndDecimate seq s B` (for a non-negative start)
returns at most `B` points, exactly `B` whenever `seq.length - s ≥ B`,
and is the identity when `seq.length ≤ B` and `s = 0`. -/
theorem windowAndDecimate_length_spec (seq : List Int) (s B : Nat) :
    (windowAndDecimate seq (s : Int) B).length ≤ B ∧
    (s + B ≤ seq.length → (windowAndDecimate seq (s : Int) B).length = B) ∧
    (seq.length ≤ B → s = 0 → windowAndDecimate seq (s : Int) B = seq) := by
  have hwin := (renderWindowSlice_nonneg seq s B).2
  have hlen : (renderWindowSlice seq (s : Int) B).length
      = min (min s (seq.length - B) + B) seq.length - min s (seq.length - B) := by
    rw [hwin]; simp only [List.length_take, List.length_drop]; omega
  have hle : (renderWindowSlice seq (s : Int) B).length ≤ B := by omega
  have hid : windowAndDecimate seq (s : Int) B = renderWindowSlice seq (s : Int) B := by
    unfold windowAndDecimate decimateData
    rw [if_pos hle]
  refine ⟨by rw [hid]; exact hle, ?_, ?_⟩
  · intro h
    rw [hid]; omega
  · intro hL hs
    subst hs
    rw [hid, hwin]
    have h0 : min 0 (seq.length - B) = 0 := by omega
    rw [h0]
    have h1 : min (0 + B) seq.length = seq.length := by omega
    rw [h1]
    simp

/-- Concrete instance of `windowAndDecimate_length_spec`: a window of a
six-element sequence at start 2 with budget 3 has exactly 3 points, and
a three-element sequence with budget 3 and start 0 is unchanged. -/
theorem windowAndDecimate_length_spec_witness :
    (windowAndDecimate [1, 2, 3, 4, 5, 6] ((2 : Nat) : Int) 3).length = 3 ∧
    windowAndDecimate [7, 8, 9] ((0 : Nat) : Int) 3 = [7, 8, 9] :=
  ⟨(windowAndDecimate_length_spec [1, 2, 3, 4, 5, 6] 2 3).2.1 (by decide),
   (windowAndDecimate_length_spec [7, 8, 9] 0 3).2.2 (by decide) rfl⟩

set_option maxRecDepth 4000 in
/-- Claim C8 counterexample: a negative requested start offset is not
clamped from below.  For a channel of length 200 and
`maxPointsPerWave = 100`, the requested start `-5` yields effective
start `-5`, outside the claimed interval `[0, max(0, 200 - 100)]`, and
the extracted sub-window is empty rather than a 100-point contiguous
range. -/
theorem getWindowStart_negative_not_clamped :
    getWindowStart (-5) 200 100 = -5 ∧
    ¬ (0 ≤ getWindowStart (-5) 200 100) ∧
    renderWindowSlice (List.replicate 200 (0 : Int)) (-5) 100 = [] := by
  decide

/-- Claim C8 amended: for NON-NEGATIVE requested start offsets the
effective start `getWindowStart s L B` lies in `[0, max(0, L - B)]` and
the extracted sub-window is the contiguous range
`[start, min(start + B, L))`; negative requested offsets are passed
through unclamped (JS `slice` semantics then apply). -/
theorem getWindowStart_clamped_nonneg (seq : List Int) (s B : Nat) :
    0 ≤ getWindowStart (s : Int) seq.length B ∧
    getWindowStart (s : Int) seq.length B ≤ max 0 ((seq.length : Int) - B) ∧
    renderWindowSlice seq (s : Int) B =
      (seq.drop (getWindowStart (s : Int) seq.length B).toNat).take
        (min ((getWindowStart (s : Int) seq.length B).toNat + B) seq.length
          - (getWindowStart (s : Int) seq.length B).toNat) := by
  obtain ⟨hstart, hwin⟩ := renderWindowSlice_nonneg seq s B
  rw [hstart]
  have ht : ((min s (seq.length - B) : Nat) : Int).toNat = min s (seq.length - B) := by
    omega
  rw [ht]
  exact ⟨by omega, by omega, hwin⟩

/-- Concrete instance of `getWindowStart_clamped_nonneg` at a
four-element channel, start 1, budget 2. -/
theorem getWindowStart_clamped_nonneg_witness :
    0 ≤ getWindowStart ((1 : Nat) : Int) ([3, 1, 4, 1] : List Int).length 2 ∧
    getWindowStart ((1 : Nat) : Int) ([3, 1, 4, 1] : List Int).length 2
      ≤ max 0 ((([3, 1, 4, 1] : List Int).length : Int) - 2) ∧
    renderWindowSlice [3, 1, 4, 1] ((1 : Nat) : Int) 2 =
      (([3, 1, 4, 1] : List Int).drop
        (getWindowStart ((1 : Nat) : Int) ([3, 1, 4, 1] : List Int).length 2).toNat).take
        (min ((getWindowStart ((1 : Nat) : Int) ([3, 1, 4, 1] : List Int).length 2).toNat + 2)
            ([3, 1, 4, 1] : List Int).length
          - (getWindowStart ((1 : Nat) : Int) ([3, 1, 4, 1] : List Int).length 2).toNat) :=
  getWindowStart_clamped_nonneg [3, 1, 4, 1] 1 2

/-- The two JS runtime exceptions reachable in `readEDFFile`:
`RangeError` from `Array(n)` when the parsed channel count is `NaN` or
negative (line 80), and `RangeError` from `DataView.getInt16` on an
out-of-bounds byte offset (line 87). -/
inductive JSError where
  | invalidArrayLength : JSError
  | dataViewBounds : JSError
deriving DecidableEq

/-- The observable outcome of `readEDFFile`: the returned
`{signals, labels}` value together with the header values the function
parses and stores (into `DATA_CONFIG` and locals).  `numDataRecords`
and `samplesPerRecord` are raw `parseInt` results (`none` = `NaN`);
`durationField` is the trimmed record-duration field (its `parseFloat`
feeds only the floating-point display configuration). -/
structure EDFResult where
  numSignals : Nat
  numDataRecords : Option Int
  samplesPerRecord : Option Int
  durationField : List Nat
  labels : List (List Nat)
  signals : List (List Int)
deriving DecidableEq

/-- Decidable equality of decode outcomes, for evaluating the decoder
on concrete buffers. -/
instance {ε α : Type} [DecidableEq ε] [DecidableEq α] : DecidableEq (Except ε α) :=
  fun x y =>
    match x, y with
    | .ok a, .ok b =>
      if h : a = b then isTrue (by rw [h])
      else isFalse (fun hc => h (by injection hc))
    | .error e, .error f =>
      if h : e = f then isTrue (by rw [h])
      else isFalse (fun hc => h (by injection hc))
    | .ok _, .error _ => isFalse (fun hc => Except.noConfusion hc)
    | .error _, .ok _ => isFalse (fun hc => Except.noConfusion hc)

/-- The signed 16-bit little-endian value stored at byte offset `off`
(`dataView.getInt16(off, true)` once the offset is known in bounds). -/
def int16ValAt (buf : List Nat) (off : Nat) : Int :=
  let u := buf.getD off 0 + 256 * buf.getD (off + 1) 0
  if u < 32768 then (u : Int) else (u : Int) - 65536

/-- `dataView.getInt16(off, true)`: out-of-bounds offsets raise
`RangeError`. -/
def getInt16LE (buf : List Nat) (off : Nat) : Except JSError Int :=
  if off + 2 ≤ buf.length then .ok (int16ValAt buf off) else .error .dataViewBounds

/-- Two little-endian bytes encoding a signed 16-bit value (the inverse
of `int16ValAt`, used to state the round-trip claims). -/
def encodeInt16LE (v : Int) : List Nat :=
  let u := (v % 65536).toNat
  [u % 256, u / 256]

/-- The inner loop of the sample decoder (lines 86–89): one value per
channel index in `chans`, read at
`recordStart + signal * bytesPerValue`; the loop aborts at the first
out-of-bounds read. -/
def readRecord (buf : List Nat) (recordStart : Nat) : List Nat → Except JSError (List Int)
  | [] => .ok []
  | s :: rest =>
    match getInt16LE buf (recordStart + s * 2) with
    | .error e => .error e
    | .ok v =>
      match readRecord buf recordStart rest with
      | .error e => .error e
      | .ok vs => .ok (v :: vs)

/-- The outer loop of the sample decoder (lines 83–90): records in
order, record `r` starting at `dataStart + r * ns * 2`. -/
def readRecords (buf : List Nat) (ns dataStart : Nat) :
    List Nat → Except JSError (List (List Int))
  | [] => .ok []
  | r :: rest =>
    match readRecord buf (dataStart + r * ns * 2) (List.range ns) with
    | .error e => .error e
    | .ok rec =>
      match readRecords buf ns dataStart rest with
      | .error e => .error e
      | .ok recs => .ok (rec :: recs)

/-- Iteration count of a JS `for (let i = 0; i < n; i++)` loop whose
bound is a `parseInt` result: `NaN` and negative bounds give zero
iterations. -/
def jsLoopCount : Option Int → Nat
  | none => 0
  | some r => r.toNat

/-- `readEDFFile` from the extended `main.ts` (lines 46–122), on an
already-fetched byte buffer.  Field offsets follow the source exactly:
channel count at `[252,256)`, record count at `[236,244)`, record
duration at `[244,252)`, the calibration channel's samples-per-record at
`256 + 216*ns`, 16-byte labels from byte 256, data records of
`ns * 2` bytes from `256 + 256*ns`.  A channel-count field that parses
to `NaN` or a negative value makes `Array(numSignals)` raise
`RangeError` (line 80); sample reads past the end of the buffer raise
`RangeError` in `getInt16` (line 87).  The per-record values are pushed
channel-wise (`signals[signal].push(value)`), i.e. channel `s` collects
entry `s` of every record in order. -/
def readEDFFile (buf : List Nat) : Except JSError EDFResult :=
  match parseIntJS (trimAscii (sliceBytes buf 252 256)) with
  | none => .error .invalidArrayLength
  | some nsInt =>
    if nsInt < 0 then .error .invalidArrayLength
    else
      let ns := nsInt.toNat
      let rcParsed := parseIntJS (trimAscii (sliceBytes buf 236 244))
      match readRecords buf ns (256 + 256 * ns) (List.range (jsLoopCount rcParsed)) with
      | .error e => .error e
      | .ok records =>
        .ok { numSignals := ns
              numDataRecords := rcParsed
              samplesPerRecord :=
                parseIntJS (trimAscii (sliceBytes buf (256 + 216 * ns) (256 + 216 * ns + 8)))
              durationField := trimAscii (sliceBytes buf 244 252)
              labels := (List.range ns).map
                (fun i => trimAscii (sliceBytes buf (256 + 16 * i) (256 + 16 * i + 16)))
              signals := (List.range ns).map
                (fun s => records.map (fun rec => rec.getD s 0)) }

/-- A synthetic EDF buffer: preamble spaces, record count at
`[236,244)`, record duration `1` at `[244,252)`, channel count at
`[252,256)`, then per channel a 16-byte label, 200 filler bytes
(transducer, physical dimension, calibration, prefiltering), an 8-byte
samples-per-record field and 32 reserved bytes, followed by the data
records, two little-endian bytes per value. -/
def mkEDFBuffer (cc rc spr : Nat) (labels : List (List Nat))
    (records : List (List Int)) : List Nat :=
  List.replicate 236 32
    ++ padField 8 (natToAscii rc)
    ++ padField 8 (natToAscii 1)
    ++ padField 4 (natToAscii cc)
    ++ (labels.map (padField 16)).flatten
    ++ List.replicate (200 * cc) 32
    ++ (List.replicate cc (padField 8 (natToAscii spr))).flatten
    ++ List.replicate (32 * cc) 32
    ++ (records.map (fun rec => (rec.map encodeInt16LE).flatten)).flatten

/-- The EDF digital-to-physical affine transform, as computed inline at
line 113 of `readEDFFile`
(`((meanDigital - digMin[i]) * (physMax[i] - physMin[i]) / (digMax[i] - digMin[i])) + physMin[i]`),
over exact rationals. -/
def toPhysical (rawValue digitalMin digitalMax physicalMin physicalMax : ℚ) : ℚ :=
  ((rawValue - digitalMin) * (physicalMax - physicalMin) / (digitalMax - digitalMin))
    + physicalMin

/-- `natDigits` is never empty. -/
theorem natDigits_ne_nil (n : Nat) : natDigits n ≠ [] := by
  rw [natDigits_eq]
  split
  · simp
  · simp

/-- Every entry of `natDigits` is a decimal digit. -/
theorem natDigits_lt_ten (n : Nat) : ∀ d ∈ natDigits n, d < 10 := by
  induction n using Nat.strong_induction_on with
  | _ n ih =>
    rw [natDigits_eq]
    by_cases h : n < 10
    · rw [if_pos h]
      intro d hd
      simp at hd
      omega
    · rw [if_neg h]
      intro d hd
      rcases List.mem_append.mp hd with h1 | h2
      · exact ih (n / 10) (by omega) d h1
      · simp at h2
        omega

/-- Accumulator form of reading decimal digits back with
`acc * 10 + d`. -/
theorem natDigits_foldl (n : Nat) : ∀ a : Nat,
    (natDigits n).foldl (fun x d => x * 10 + d) a
      = a * 10 ^ (natDigits n).length + n := by
  induction n using Nat.strong_induction_on with
  | _ n ih =>
    intro a
    rw [natDigits_eq]
    by_cases h : n < 10
    · rw [if_pos h]
      simp
    · rw [if_neg h]
      rw [List.foldl_append, ih (n / 10) (by omega) a]
      simp only [List.foldl_cons, List.foldl_nil, List.length_append,
        List.length_cons, List.length_nil, Nat.zero_add]
      calc (a * 10 ^ (natDigits (n / 10)).length + n / 10) * 10 + n % 10
          = a * (10 ^ (natDigits (n / 10)).length * 10) + (10 * (n / 10) + n % 10) := by
            ring
        _ = a * 10 ^ ((natDigits (n / 10)).length + 1) + n := by
            rw [pow_succ, Nat.div_add_mod]

/-- Every byte of `natToAscii` is an ASCII digit. -/
theorem natToAscii_digits (n : Nat) : ∀ b ∈ natToAscii n, isDigitB b = true := by
  intro b hb
  obtain ⟨d, hd, rfl⟩ := List.mem_map.mp hb
  have := natDigits_lt_ten n d hd
  unfold isDigitB
  simp only [Bool.and_eq_true, decide_eq_true_eq]
  omega

/-- No byte of `natToAscii` is whitespace. -/
theorem natToAscii_noWS (n : Nat) : ∀ b ∈ natToAscii n, isWS b = false := by
  intro b hb
  obtain ⟨d, hd, rfl⟩ := List.mem_map.mp hb
  unfold isWS
  simp only [Bool.or_eq_false_iff, beq_eq_false_iff_ne, ne_eq]
  omega

/-- `natToAscii` is never empty. -/
theorem natToAscii_ne_nil (n : Nat) : natToAscii n ≠ [] := by
  unfold natToAscii
  simp [natDigits_ne_nil]

/-- Reading the decimal ASCII rendering of `n` back yields `n`. -/
theorem parseDigitsJS_natToAscii (n : Nat) : parseDigitsJS (natToAscii n) = some n := by
  unfold parseDigitsJS
  rw [List.takeWhile_eq_self_iff.mpr (natToAscii_digits n)]
  rw [if_neg (by simp [natToAscii_ne_nil n, List.isEmpty_iff])]
  unfold natToAscii
  rw [List.foldl_map]
  simp only [Nat.add_sub_cancel]
  rw [natDigits_foldl n 0]
  simp

/-- `parseInt` inverts the decimal ASCII rendering. -/
theorem parseIntJS_natToAscii (n : Nat) : parseIntJS (natToAscii n) = some (n : Int) := by
  obtain ⟨d, ds, hd⟩ := List.exists_cons_of_ne_nil (natToAscii_ne_nil n)
  have hdig : isDigitB d = true := natToAscii_digits n d (by rw [hd]; simp)
  have hd48 : 48 ≤ d := by simp [isDigitB] at hdig; omega
  rw [hd]
  simp only [parseIntJS]
  rw [if_neg (by omega), if_neg (by omega), ← hd, parseDigitsJS_natToAscii]
  rfl

/-- Reversing a constant list is the identity. -/
theorem reverse_replicate_self (k a : Nat) :
    (List.replicate k a).reverse = List.replicate k a := by
  induction k with
  | zero => rfl
  | succ k ih =>
    rw [List.replicate_succ, List.reverse_cons, ih, ← List.replicate_succ',
      List.replicate_succ]

/-- `dropWhile` is the identity on a list whose entries all fail the
predicate. -/
theorem dropWhile_of_all_false (p : Nat → Bool) (m : List Nat)
    (hm : ∀ b ∈ m, p b = false) : m.dropWhile p = m := by
  cases m with
  | nil => rfl
  | cons a t =>
    rw [List.dropWhile_cons, if_neg (by rw [hm a (List.mem_cons_self a t)]; simp)]

/-- Trailing space padding does not change a trimmed field. -/
theorem trimAscii_append_spaces (l : List Nat) (k : Nat) :
    trimAscii (l ++ List.replicate k 32) = trimAscii l := by
  unfold trimAscii
  have hws : ∀ b ∈ List.replicate k 32, isWS b = true := by
    intro b hb
    rw [List.eq_of_mem_replicate hb]
    rfl
  rcases h : l.dropWhile isWS with _ | ⟨b, rest⟩
  · rw [List.dropWhile_append, h]
    simp only [List.isEmpty_nil, if_true]
    rw [List.dropWhile_eq_nil_iff.mpr hws]
  · rw [List.dropWhile_append, h]
    rw [if_neg (by simp)]
    rw [List.reverse_append, reverse_replicate_self,
      List.dropWhile_append_of_pos hws]

/-- A byte string without whitespace is its own trim. -/
theorem trimAscii_of_noWS (l : List Nat) (h : ∀ b ∈ l, isWS b = false) :
    trimAscii l = l := by
  unfold trimAscii
  rw [dropWhile_of_all_false _ _ h,
    dropWhile_of_all_false _ _ (fun b hb => h b (List.mem_reverse.mp hb)),
    List.reverse_reverse]

/-- Parsing a space-padded decimal field recovers the encoded number. -/
theorem parse_padField (w n : Nat) :
    parseIntJS (trimAscii (padField w (natToAscii n))) = some (n : Int) := by
  unfold padField
  rw [trimAscii_append_spaces, trimAscii_of_noWS _ (natToAscii_noWS n),
    parseIntJS_natToAscii]

/-- The byte offset of sample `(r, s)` stays within the data section. -/
theorem sample_offset_le (r s rc cc ds : Nat) (hr : r < rc) (hs : s < cc) :
    ds + r * cc * 2 + s * 2 + 2 ≤ ds + 2 * (cc * rc) := by
  have h1 : r * cc + s + 1 ≤ rc * cc := by
    calc r * cc + s + 1 ≤ r * cc + cc := by omega
      _ = (r + 1) * cc := by ring
      _ ≤ rc * cc := Nat.mul_le_mul_right _ (by omega)
  have h2 : rc * cc = cc * rc := Nat.mul_comm rc cc
  linarith

/-- A two-byte slice pins down the two byte reads of `int16ValAt`. -/
theorem sliceBytes_pair (buf : List Nat) (off x y : Nat)
    (h : sliceBytes buf off (off + 2) = [x, y]) :
    buf.getD off 0 = x ∧ buf.getD (off + 1) 0 = y := by
  unfold sliceBytes at h
  have h2 : off + 2 - off = 2 := by omega
  rw [h2] at h
  have hx : buf[off]? = some x := by
    have hc := congrArg (fun l => l[0]?) h
    simp only at hc
    rw [List.getElem?_take_of_lt (by omega), List.getElem?_drop] at hc
    simpa using hc
  have hy : buf[off + 1]? = some y := by
    have hc := congrArg (fun l => l[1]?) h
    simp only at hc
    rw [List.getElem?_take_of_lt (by omega), List.getElem?_drop] at hc
    simpa using hc
  constructor
  · rw [List.getD_eq_getElem?_getD, hx]; rfl
  · rw [List.getD_eq_getElem?_getD, hy]; rfl

/-- Decoding the two little-endian bytes of a signed 16-bit value
recovers the value. -/
theorem int16ValAt_encode (buf : List Nat) (off : Nat) (v : Int)
    (hlo : -32768 ≤ v) (hhi : v < 32768)
    (hslice : sliceBytes buf off (off + 2) = encodeInt16LE v) :
    int16ValAt buf off = v := by
  have henc : encodeInt16LE v
      = [(v % 65536).toNat % 256, (v % 65536).toNat / 256] := rfl
  rw [henc] at hslice
  obtain ⟨h0, h1⟩ := sliceBytes_pair buf off _ _ hslice
  simp only [int16ValAt]
  rw [h0, h1]
  have hu : (v % 65536).toNat % 256 + 256 * ((v % 65536).toNat / 256)
      = (v % 65536).toNat := by omega
  rw [hu]
  split <;> omega

/-- `readRecord` succeeds when every per-channel read succeeds, and
collects the per-channel values in channel order. -/
theorem readRecord_ok (buf : List Nat) (rs : Nat) (f : Nat → Int) :
    ∀ l : List Nat, (∀ s ∈ l, getInt16LE buf (rs + s * 2) = .ok (f s)) →
      readRecord buf rs l = .ok (l.map f) := by
  intro l
  induction l with
  | nil => intro _; rfl
  | cons a t ih =>
    intro h
    simp only [readRecord]
    rw [h a (List.mem_cons_self a t),
      ih (fun s hs => h s (List.mem_cons_of_mem a hs))]
    simp

/-- `readRecords` succeeds when every record read succeeds, and collects
the records in order. -/
theorem readRecords_ok (buf : List Nat) (ns ds : Nat) (g : Nat → List Int) :
    ∀ l : List Nat,
      (∀ r ∈ l, readRecord buf (ds + r * ns * 2) (List.range ns) = .ok (g r)) →
      readRecords buf ns ds l = .ok (l.map g) := by
  intro l
  induction l with
  | nil => intro _; rfl
  | cons a t ih =>
    intro h
    simp only [readRecords]
    rw [h a (List.mem_cons_self a t),
      ih (fun r hr => h r (List.mem_cons_of_mem a hr))]
    simp

/-- The only error `getInt16LE` raises is the bounds `RangeError`. -/
theorem getInt16LE_error (buf : List Nat) (off : Nat) (e : JSError)
    (h : getInt16LE buf off = .error e) : e = .dataViewBounds := by
  unfold getInt16LE at h
  split at h
  · simp at h
  · simp at h
    exact h.symm

/-- The only error `readRecord` propagates is the bounds `RangeError`. -/
theorem readRecord_error_val (buf : List Nat) (rs : Nat) :
    ∀ (l : List Nat) (e : JSError), readRecord buf rs l = .error e →
      e = .dataViewBounds := by
  intro l
  induction l with
  | nil => intro e h; simp [readRecord] at h
  | cons a t ih =>
    intro e h
    simp only [readRecord] at h
    cases hge : getInt16LE buf (rs + a * 2) with
    | error e1 =>
      rw [hge] at h
      simp at h
      rw [← h]
      exact getInt16LE_error buf (rs + a * 2) e1 hge
    | ok v =>
      rw [hge] at h
      cases hrr : readRecord buf rs t with
      | error e2 =>
        rw [hrr] at h
        simp at h
        rw [← h]
        exact ih e2 hrr
      | ok vs =>
        rw [hrr] at h
        simp at h

/-- An out-of-bounds channel read makes the whole record read fail with
the bounds `RangeError`. -/
theorem readRecord_err (buf : List Nat) (rs : Nat) :
    ∀ (l : List Nat) (s : Nat), s ∈ l → buf.length < rs + s * 2 + 2 →
      readRecord buf rs l = .error .dataViewBounds := by
  intro l
  induction l with
  | nil => intro s hs _; simp at hs
  | cons a t ih =>
    intro s hs hlen
    simp only [readRecord]
    rcases List.mem_cons.mp hs with rfl | hmem
    · have hfail : getInt16LE buf (rs + s * 2) = .error .dataViewBounds := by
        unfold getInt16LE
        rw [if_neg (by omega)]
      rw [hfail]
    · cases hge : getInt16LE buf (rs + a * 2) with
      | error e1 =>
        rw [getInt16LE_error buf (rs + a * 2) e1 hge]
      | ok v =>
        rw [ih s hmem hlen]

/-- A failing record read makes `readRecords` fail with the bounds
`RangeError`. -/
theorem readRecords_err (buf : List Nat) (ns ds : Nat) :
    ∀ (l : List Nat) (r : Nat), r ∈ l →
      readRecord buf (ds + r * ns * 2) (List.range ns) = .error .dataViewBounds →
      readRecords buf ns ds l = .error .dataViewBounds := by
  intro l
  induction l with
  | nil => intro r hr _; simp at hr
  | cons a t ih =>
    intro r hr hrec
    simp only [readRecords]
    rcases List.mem_cons.mp hr with rfl | hmem
    · rw [hrec]
    · cases hra : readRecord buf (ds + a * ns * 2) (List.range ns) with
      | error e1 =>
        rw [readRecord_error_val buf (ds + a * ns * 2) (List.range ns) e1 hra]
      | ok rec =>
        rw [ih r hmem hrec]

/-- Reading a list back by position is the identity. -/
theorem range_map_getD {α : Type} (l : List α) (d : α) :
    (List.range l.length).map (fun i => l.getD i d) = l := by
  induction l with
  | nil => rfl
  | cons a t ih =>
    rw [List.length_cons, List.range_succ_eq_map, List.map_cons, List.map_map]
    simp only [Function.comp_def, List.getD_cons_zero, List.getD_cons_succ]
    rw [ih]

/-- `getD` over a mapped range evaluates the function. -/
theorem getD_map_range {α : Type} (f : Nat → α) (d : α) (n s : Nat) (h : s < n) :
    ((List.range n).map f).getD s d = f s := by
  rw [List.getD_eq_getElem?_getD, List.getElem?_map, List.getElem?_range h]
  rfl

/-- When the channel-count and record-count fields parse to `cc` and
`rc` and the buffer covers the implied data section, `readEDFFile`
succeeds, and every field of the result is determined by the header
slices and the little-endian sample reads. -/
theorem readEDFFile_ok_shape (buf : List Nat) (cc rc : Nat)
    (hcc : parseIntJS (trimAscii (sliceBytes buf 252 256)) = some (cc : Int))
    (hrc : parseIntJS (trimAscii (sliceBytes buf 236 244)) = some (rc : Int))
    (hlen : 256 + 256 * cc + 2 * (cc * rc) ≤ buf.length) :
    readEDFFile buf = .ok
      { numSignals := cc
        numDataRecords := some (rc : Int)
        samplesPerRecord :=
          parseIntJS (trimAscii (sliceBytes buf (256 + 216 * cc) (256 + 216 * cc + 8)))
        durationField := trimAscii (sliceBytes buf 244 252)
        labels := (List.range cc).map
          (fun i => trimAscii (sliceBytes buf (256 + 16 * i) (256 + 16 * i + 16)))
        signals := (List.range cc).map (fun s => (List.range rc).map
          (fun r => int16ValAt buf (256 + 256 * cc + r * cc * 2 + s * 2))) } := by
  have hrecords : readRecords buf cc (256 + 256 * cc) (List.range rc)
      = .ok ((List.range rc).map (fun r => (List.range cc).map
          (fun s => int16ValAt buf (256 + 256 * cc + r * cc * 2 + s * 2)))) := by
    apply readRecords_ok
    intro r hr
    apply readRecord_ok
    intro s hs
    unfold getInt16LE
    rw [if_pos ?bnd]
    case bnd =>
      have hb := sample_offset_le r s rc cc (256 + 256 * cc)
        (List.mem_range.mp hr) (List.mem_range.mp hs)
      omega
  have hsig : ∀ s ∈ List.range cc,
      ((List.range rc).map (fun r => (List.range cc).map
          (fun s2 => int16ValAt buf (256 + 256 * cc + r * cc * 2 + s2 * 2)))).map
        (fun rec => rec.getD s 0)
      = (List.range rc).map
          (fun r => int16ValAt buf (256 + 256 * cc + r * cc * 2 + s * 2)) := by
    intro s hs
    rw [List.map_map]
    apply List.map_congr_left
    intro r _
    simp only [Function.comp_apply]
    exact getD_map_range _ 0 cc s (List.mem_range.mp hs)
  simp only [readEDFFile, hcc]
  rw [if_neg (by omega)]
  simp only [Int.toNat_natCast, hrc, jsLoopCount, hrecords]
  rw [List.map_congr_left hsig]

/-- Claim C2: on a valid EDF buffer whose data section stores the
signed 16-bit little-endian values `v r s` (record `r`, channel `s` at
byte offset `headerSize + r*cc*2 + s*2`), `readEDFFile` decodes channel
`s` to `v 0 s, v 1 s, …, v (rc-1) s`: record-major deinterleaving with
channels in order within each record. -/
theorem readEDFFile_roundtrip (buf : List Nat) (cc rc : Nat) (v : Nat → Nat → Int)
    (hcc : parseIntJS (trimAscii (sliceBytes buf 252 256)) = some (cc : Int))
    (hrc : parseIntJS (trimAscii (sliceBytes buf 236 244)) = some (rc : Int))
    (hlen : 256 + 256 * cc + 2 * (cc * rc) ≤ buf.length)
    (hval : ∀ r, r < rc → ∀ s, s < cc → -32768 ≤ v r s ∧ v r s < 32768)
    (hdata : ∀ r, r < rc → ∀ s, s < cc →
      sliceBytes buf (256 + 256 * cc + r * cc * 2 + s * 2)
          (256 + 256 * cc + r * cc * 2 + s * 2 + 2) = encodeInt16LE (v r s)) :
    (readEDFFile buf).map EDFResult.signals
      = .ok ((List.range cc).map (fun s => (List.range rc).map (fun r => v r s))) := by
  rw [readEDFFile_ok_shape buf cc rc hcc hrc hlen]
  simp only [Except.map]
  congr 1
  apply List.map_congr_left
  intro s hs
  apply List.map_congr_left
  intro r hr
  exact int16ValAt_encode buf _ (v r s)
    (hval r (List.mem_range.mp hr) s (List.mem_range.mp hs)).1
    (hval r (List.mem_range.mp hr) s (List.mem_range.mp hs)).2
    (hdata r (List.mem_range.mp hr) s (List.mem_range.mp hs))

/-- The scenario buffer of claim C2: `channelCount = 2`,
`recordCount = 3`, `samplesPerRecord = 1`, interleaved raw values
`(10,20) (30,40) (50,60)`, labels `Fp1`, `Fp2`. -/
def c2buf : List Nat :=
  mkEDFBuffer 2 3 1 [[70, 112, 49], [70, 112, 50]] [[10, 20], [30, 40], [50, 60]]

/-- The value table of the C2 scenario: sample of channel `s` in
record `r`. -/
def c2vals (r s : Nat) : Int :=
  (([[10, 20], [30, 40], [50, 60]] : List (List Int)).getD r []).getD s 0

set_option maxRecDepth 40000 in
/-- Concrete instance of `readEDFFile_roundtrip`: the claim's scenario
decodes to channel 0 = `[10,30,50]`, channel 1 = `[20,40,60]`. -/
theorem readEDFFile_roundtrip_witness :
    (readEDFFile c2buf).map EDFResult.signals = .ok [[10, 30, 50], [20, 40, 60]] := by
  have h := readEDFFile_roundtrip c2buf 2 3 c2vals (by decide) (by decide) (by decide)
    (by decide) (by decide)
  rw [h]
  decide

/-- Claim C4: a buffer carrying channel count `cc` (ASCII at bytes
[252,256)), record count `rc` (bytes [236,244)) and 16-byte
space-padded labels from byte 256 decodes to exactly that channel
count, that record count, and the trimmed labels in order — no
uniqueness of labels is required, so duplicates are preserved. -/
theorem readEDFFile_header_roundtrip (buf : List Nat) (cc rc : Nat)
    (labels : List (List Nat))
    (hcc4 : sliceBytes buf 252 256 = padField 4 (natToAscii cc))
    (hrc8 : sliceBytes buf 236 244 = padField 8 (natToAscii rc))
    (hlab : labels.length = cc)
    (hlabi : ∀ i, i < cc →
      sliceBytes buf (256 + 16 * i) (256 + 16 * i + 16) = padField 16 (labels.getD i []))
    (htrim : ∀ lab ∈ labels, trimAscii lab = lab)
    (hlen : 256 + 256 * cc + 2 * (cc * rc) ≤ buf.length) :
    (readEDFFile buf).map EDFResult.numSignals = .ok cc ∧
    (readEDFFile buf).map EDFResult.numDataRecords = .ok (some (rc : Int)) ∧
    (readEDFFile buf).map EDFResult.labels = .ok labels := by
  have hcc' : parseIntJS (trimAscii (sliceBytes buf 252 256)) = some (cc : Int) := by
    rw [hcc4, parse_padField]
  have hrc' : parseIntJS (trimAscii (sliceBytes buf 236 244)) = some (rc : Int) := by
    rw [hrc8, parse_padField]
  rw [readEDFFile_ok_shape buf cc rc hcc' hrc' hlen]
  refine ⟨rfl, rfl, ?_⟩
  simp only [Except.map]
  congr 1
  have hpt : ∀ i ∈ List.range cc,
      trimAscii (sliceBytes buf (256 + 16 * i) (256 + 16 * i + 16)) = labels.getD i [] := by
    intro i hi
    rw [hlabi i (List.mem_range.mp hi)]
    unfold padField
    rw [trimAscii_append_spaces]
    apply htrim
    have hilen : i < labels.length := by rw [hlab]; exact List.mem_range.mp hi
    rw [List.getD_eq_getElem?_getD, List.getElem?_eq_getElem hilen]
    exact List.getElem_mem hilen
  rw [List.map_congr_left hpt, ← hlab, range_map_getD]

/-- Witness buffer for claim C4: one channel labelled `Cz`, one record. -/
def c4buf : List Nat := mkEDFBuffer 1 1 1 [[67, 122]] [[0]]

set_option maxRecDepth 40000 in
/-- Concrete instance of `readEDFFile_header_roundtrip` at `c4buf`. -/
theorem readEDFFile_header_roundtrip_witness :
    (readEDFFile c4buf).map EDFResult.numSignals = .ok 1 ∧
    (readEDFFile c4buf).map EDFResult.numDataRecords = .ok (some ((1 : Nat) : Int)) ∧
    (readEDFFile c4buf).map EDFResult.labels = .ok [[67, 122]] :=
  readEDFFile_header_roundtrip c4buf 1 1 [[67, 122]] (by decide) (by decide) (by decide)
    (by decide) (by decide) (by decide)

set_option maxRecDepth 40000 in
/-- Claim C5 counterexample: a buffer whose record-count field
[236,244) is all spaces (non-numeric after trimming) does NOT make
`readEDFFile` fail — decoding proceeds past the header and returns a
result whose channels are simply empty, because the `NaN` loop bound
skips every record. -/
theorem readEDFFile_nonnumeric_recordCount_ok :
    parseIntJS (trimAscii (sliceBytes (List.replicate 252 32 ++ [49, 32, 32, 32]) 236 244))
      = none ∧
    readEDFFile (List.replicate 252 32 ++ [49, 32, 32, 32]) = .ok
      { numSignals := 1, numDataRecords := none, samplesPerRecord := none,
        durationField := [], labels := [[]], signals := [[]] } := by
  decide

/-- Claim C5 amended: only the channel-count field is load-bearing — a
channel-count field that is non-numeric after trimming makes
`readEDFFile` fail (with the invalid-array-length `RangeError`, not a
typed `MalformedHeader`), before any sample decoding. -/
theorem readEDFFile_malformed_channelCount_fails (buf : List Nat)
    (h : parseIntJS (trimAscii (sliceBytes buf 252 256)) = none) :
    readEDFFile buf = .error .invalidArrayLength := by
  simp only [readEDFFile, h]

set_option maxRecDepth 40000 in
/-- Concrete instance of `readEDFFile_malformedChannelCount_fails`: an
all-spaces 256-byte buffer. -/
theorem readEDFFile_malformed_channelCount_fails_witness :
    readEDFFile (List.replicate 256 32) = .error .invalidArrayLength :=
  readEDFFile_malformed_channelCount_fails (List.replicate 256 32) (by decide)

set_option maxRecDepth 40000 in
/-- Claim C6 counterexample: a 256-byte buffer declaring one channel
and zero records is shorter than `headerSize + rc*cc*2 = 512` bytes,
yet `readEDFFile` succeeds instead of failing with a truncation
condition (the record loop performs no read at all). -/
theorem readEDFFile_short_buffer_ok :
    parseIntJS (trimAscii (sliceBytes
      (List.replicate 236 32 ++ padField 8 (natToAscii 0) ++ List.replicate 8 32
        ++ [49, 32, 32, 32]) 252 256)) = some 1 ∧
    parseIntJS (trimAscii (sliceBytes
      (List.replicate 236 32 ++ padField 8 (natToAscii 0) ++ List.replicate 8 32
        ++ [49, 32, 32, 32]) 236 244)) = some 0 ∧
    (List.replicate 236 32 ++ padField 8 (natToAscii 0) ++ List.replicate 8 32
        ++ [49, 32, 32, 32]).length < 256 + 256 * 1 + 0 * 1 * 2 ∧
    readEDFFile (List.replicate 236 32 ++ padField 8 (natToAscii 0) ++ List.replicate 8 32
        ++ [49, 32, 32, 32]) = .ok
      { numSignals := 1, numDataRecords := some 0, samplesPerRecord := none,
        durationField := [], labels := [[]], signals := [[]] } := by
  decide

/-- Claim C6 amended: when the channel count parses to `cc ≥ 1`, the
record count to `rc ≥ 1`, and the buffer is shorter than
`headerSize + rc*cc*2` with `headerSize = 256 + 256*cc`, `readEDFFile`
fails with the `DataView` bounds `RangeError` (not a typed
`TruncatedData`) and returns no partial signal matrix. -/
theorem readEDFFile_truncated_fails (buf : List Nat) (cc rc : Nat)
    (hcc : parseIntJS (trimAscii (sliceBytes buf 252 256)) = some (cc : Int))
    (hrc : parseIntJS (trimAscii (sliceBytes buf 236 244)) = some (rc : Int))
    (hcc1 : 1 ≤ cc) (hrc1 : 1 ≤ rc)
    (hshort : buf.length < 256 + 256 * cc + 2 * (cc * rc)) :
    readEDFFile buf = .error .dataViewBounds := by
  obtain ⟨cc1, rfl⟩ : ∃ cc1, cc = cc1 + 1 := ⟨cc - 1, by omega⟩
  obtain ⟨rc1, rfl⟩ : ∃ rc1, rc = rc1 + 1 := ⟨rc - 1, by omega⟩
  have hrec : readRecord buf (256 + 256 * (cc1 + 1) + rc1 * (cc1 + 1) * 2)
      (List.range (cc1 + 1)) = .error .dataViewBounds := by
    apply readRecord_err buf _ (List.range (cc1 + 1)) cc1 (List.mem_range.mpr (by omega))
    have hexp : 256 + 256 * (cc1 + 1) + rc1 * (cc1 + 1) * 2 + cc1 * 2 + 2
        = 256 + 256 * (cc1 + 1) + 2 * ((cc1 + 1) * (rc1 + 1)) := by ring
    rw [hexp]
    exact hshort
  have hrecs : readRecords buf (cc1 + 1) (256 + 256 * (cc1 + 1)) (List.range (rc1 + 1))
      = .error .dataViewBounds :=
    readRecords_err buf (cc1 + 1) (256 + 256 * (cc1 + 1)) (List.range (rc1 + 1)) rc1
      (List.mem_range.mpr (by omega)) hrec
  simp only [readEDFFile, hcc]
  rw [if_neg (by omega)]
  simp only [Int.toNat_natCast, hrc, jsLoopCount, hrecs]

/-- Witness buffer for the amended claim C6: one channel, one record
declared, but only 256 bytes long. -/
def c6wbuf : List Nat :=
  List.replicate 236 32 ++ padField 8 (natToAscii 1) ++ List.replicate 8 32
    ++ [49, 32, 32, 32]

set_option maxRecDepth 40000 in
/-- Concrete instance of `readEDFFile_truncated_fails` at `c6wbuf`. -/
theorem readEDFFile_truncated_fails_witness :
    readEDFFile c6wbuf = .error .dataViewBounds :=
  readEDFFile_truncated_fails c6wbuf 1 1 (by decide) (by decide) (by decide) (by decide)
    (by decide)

/-- Failing input for claim C3: one channel, one record,
`samplesPerRecord = 2` in the header, label `Cz`, one 16-bit value 5
in the data section. -/
def c3buf : List Nat := mkEDFBuffer 1 1 2 [[67, 122]] [[5]]

/-- What `readEDFFile` actually returns on `c3buf`. -/
def c3result : EDFResult :=
  { numSignals := 1, numDataRecords := some 1, samplesPerRecord := some 2,
    durationField := [49], labels := [[67, 122]], signals := [[5]] }

set_option maxRecDepth 40000 in
/-- Claim C3 fails on the code: the sample loop reads exactly one value
per channel per record, so each channel ends with `recordCount` samples
(here 1), not `recordCount × samplesPerRecord` (here `1 * 2 = 2`),
even though the header's samples-per-record field parses to 2. -/
theorem readEDFFile_ignores_samplesPerRecord :
    readEDFFile c3buf = .ok c3result ∧
    c3result.samplesPerRecord = some 2 ∧
    c3result.numDataRecords = some 1 ∧
    c3result.signals.map List.length = [1] ∧
    (1 : Nat) ≠ 1 * 2 := by
  decide

/-- Claim C9: `toPhysical` is definitionally the EDF affine transform,
and for calibrations with `physicalMin < physicalMax` and
`digitalMin < digitalMax` it is affine with positive slope and strictly
monotone in the raw value. -/
theorem toPhysical_affine_strictMono (dmin dmax pmin pmax : ℚ)
    (hp : pmin < pmax) (hd : dmin < dmax) :
    (∀ r, toPhysical r dmin dmax pmin pmax
        = ((r - dmin) * (pmax - pmin) / (dmax - dmin)) + pmin) ∧
    (∃ a b : ℚ, 0 < a ∧ ∀ r, toPhysical r dmin dmax pmin pmax = a * r + b) ∧
    StrictMono (fun r => toPhysical r dmin dmax pmin pmax) := by
  have hdd : (0 : ℚ) < dmax - dmin := by linarith
  have ha : (0 : ℚ) < (pmax - pmin) / (dmax - dmin) := div_pos (by linarith) hdd
  have haff : ∀ r, toPhysical r dmin dmax pmin pmax
      = ((pmax - pmin) / (dmax - dmin)) * r
        + (pmin - dmin * ((pmax - pmin) / (dmax - dmin))) := by
    intro r
    unfold toPhysical
    field_simp
    ring
  refine ⟨fun r => rfl, ⟨_, _, ha, haff⟩, ?_⟩
  intro x y hxy
  simp only
  rw [haff x, haff y]
  have hm := mul_lt_mul_of_pos_left hxy ha
  linarith

/-- Concrete instance of `toPhysical_affine_strictMono` with digital
range `[0,1]` and physical range `[0,2]`. -/
theorem toPhysical_affine_strictMono_witness :
    (∀ r : ℚ, toPhysical r 0 1 0 2 = ((r - 0) * (2 - 0) / (1 - 0)) + 0) ∧
    (∃ a b : ℚ, 0 < a ∧ ∀ r, toPhysical r 0 1 0 2 = a * r + b) ∧
    StrictMono (fun r : ℚ => toPhysical r 0 1 0 2) :=
  toPhysical_affine_strictMono 0 1 0 2 (by norm_num) (by norm_num)
